import Mathlib

/-!
Shallow embedding of the three PDF command-line utilities
(`reorder.py`, `merge.py`, `split.py`) of the repository, together with
proofs of the specified properties.

Conventions of the embedding:
* Python lists become Lean `List`s; Python `int` becomes `Int` where
  negative values are reachable, `Nat` where the source only ever sees
  non-negative values (page counts from `getNumPages`).
* Fallible code returns `Except PdfError _`; a failing Python `assert`
  is an error outcome, classified per the spec's error taxonomy.
* The filesystem and the opaque PDF library are abstracted as explicit
  function parameters (path-existence predicates, file contents as page
  lists), so every definition stays executable.
-/

namespace PdfUtils

/-- Error taxonomy of the utilities: the named error kinds of the spec
plus the two raw Python exception outcomes (`AssertionError` from a
failing `assert`, `TypeError` from an ill-typed `+`). -/
inductive PdfError where
  | notFound
  | alreadyExists
  | emptyInput
  | invalidArgument
  | parseError
  | assertionFailed
  | typeError
  | indexError
  deriving DecidableEq, Repr

/-!
## reorder.py

`_make_sequence` builds the output page order with two extended-slice
assignments: `correct[::2] = left` and `correct[1::2] = right`.
`assignSlice2 l off vals` models the Python statement
`l[off::2] = vals`: it replaces the elements of `l` at positions
`off, off+2, off+4, ...` with the elements of `vals` in order.
(Python raises `ValueError` when the slice and `vals` have different
lengths; `_make_sequence` only reaches the assignments with equal
lengths — see `assignSlice2_getElem?`, which carries that
length precondition.)
-/

def assignSlice2 {α : Type} : List α → Nat → List α → List α
  | l, _, [] => l
  | [], _, _ => []
  | _ :: rest, 0, v :: vs => v :: assignSlice2 rest 1 vs
  | x :: rest, off + 1, vals => x :: assignSlice2 rest off vals

/-- `_make_sequence(n)` from `reorder.py` lines 12-22.  The
`assert n % 2 == 0` on line 13 fails for odd `n`; the spec's error
taxonomy (§7) classifies a malformed transform input (odd page count)
as `InvalidArgument`. -/
def makeSequence (n : Nat) : Except PdfError (List Nat) :=
  if n % 2 = 0 then
    let pages := List.range n
    let half := n / 2
    let left := pages.take half
    let right := (pages.drop half).reverse
    let correct := List.range n
    let correct := assignSlice2 correct 0 left
    let correct := assignSlice2 correct 1 right
    .ok correct
  else
    .error .invalidArgument

theorem assignSlice2_length {α : Type} :
    ∀ (l : List α) (off : Nat) (vals : List α),
      (assignSlice2 l off vals).length = l.length
  | _, _, [] => by simp [assignSlice2]
  | [], _, v :: vs => by simp [assignSlice2]
  | _ :: rest, 0, v :: vs => by
      simp [assignSlice2, assignSlice2_length rest 1 vs]
  | x :: rest, off + 1, v :: vs => by
      simp [assignSlice2, assignSlice2_length rest off (v :: vs)]

/-- Elementwise description of `l[off::2] = vals` under the Python
precondition that the extended slice and `vals` have equal lengths
(this is what `len(l[off::2]) == len(vals)` amounts to when every
assigned position is in range). -/
theorem assignSlice2_getElem? {α : Type} :
    ∀ (l : List α) (off : Nat) (vals : List α),
      off + 2 * vals.length ≤ l.length + 1 → ∀ (i : Nat),
      (assignSlice2 l off vals)[i]? =
        if off ≤ i ∧ (i - off) % 2 = 0 ∧ (i - off) / 2 < vals.length
        then vals[(i - off) / 2]? else l[i]?
  | l, off, [], _, i => by
      simp [assignSlice2]
  | [], off, v :: vs, hlen, i => by
      simp at hlen; omega
  | x :: rest, 0, v :: vs, hlen, i => by
      match i with
      | 0 => simp [assignSlice2]
      | j + 1 =>
        have hlen' : 1 + 2 * vs.length ≤ rest.length + 1 := by
          simp at hlen; omega
        have ih := assignSlice2_getElem? rest 1 vs hlen' j
        simp only [assignSlice2, List.getElem?_cons_succ, ih]
        by_cases hpar : (j + 1) % 2 = 0
        · have hj1 : 1 ≤ j := by omega
          have hj2 : (j - 1) % 2 = 0 := by omega
          have hdiv : (j + 1) / 2 = (j - 1) / 2 + 1 := by omega
          by_cases hlt : (j - 1) / 2 < vs.length
          · simp [hj1, hj2, hpar, hdiv, hlt, Nat.lt_succ_iff,
              Nat.succ_le_of_lt]
          · have : ¬ (j + 1) / 2 < vs.length + 1 := by omega
            simp [hlt, hdiv, this]
        · have : ¬ (j - 1) % 2 = 0 ∨ ¬ 1 ≤ j := by omega
          rcases this with h' | h' <;> simp [hpar, h']
  | x :: rest, off + 1, v :: vs, hlen, i => by
      match i with
      | 0 => simp [assignSlice2]
      | j + 1 =>
        have hlen' : off + 2 * (v :: vs).length ≤ rest.length + 1 := by
          simp at hlen ⊢; omega
        have ih := assignSlice2_getElem? rest off (v :: vs) hlen' j
        simp only [assignSlice2, List.getElem?_cons_succ, ih]
        have harith : j + 1 - (off + 1) = j - off := by omega
        have hiff : off + 1 ≤ j + 1 ↔ off ≤ j := by omega
        rw [harith]
        by_cases hle : off ≤ j
        · simp [hle, hiff.mpr hle]
        · simp [hle, fun h => hle (hiff.mp h)]

/-- The combined effect of `correct[::2] = xs; correct[1::2] = ys` on a
list of length `2 * |xs|` with `|xs| = |ys|`: the two halves are
interleaved pairwise. -/
def interleavePairs {α : Type} (xs ys : List α) : List α :=
  (xs.zip ys).flatMap (fun p => [p.1, p.2])

theorem assignSlice2_cons_succ {α : Type} (x : α) (rest : List α)
    (off : Nat) (vals : List α) :
    assignSlice2 (x :: rest) (off + 1) vals =
      x :: assignSlice2 rest off vals := by
  cases vals <;> simp [assignSlice2]

theorem assignSlice2_interleave {α : Type} :
    ∀ (xs ys l : List α), l.length = 2 * xs.length →
      xs.length = ys.length →
      assignSlice2 (assignSlice2 l 0 xs) 1 ys = interleavePairs xs ys
  | [], ys, l, hl, hxy => by
      match ys, l with
      | [], [] => simp [assignSlice2, interleavePairs]
  | a :: as, ys, l, hl, hxy => by
      match ys, l with
      | b :: bs, x :: y :: l'' =>
        have hl'' : l''.length = 2 * as.length := by
          simp at hl; omega
        have hxy' : as.length = bs.length := by simpa using hxy
        have ih := assignSlice2_interleave as bs l'' hl'' hxy'
        show assignSlice2 (assignSlice2 (x :: y :: l'') 0 (a :: as)) 1
            (b :: bs) = interleavePairs (a :: as) (b :: bs)
        rw [show assignSlice2 (x :: y :: l'') 0 (a :: as) =
            a :: y :: assignSlice2 l'' 0 as by
          simp [assignSlice2, assignSlice2_cons_succ]]
        rw [assignSlice2_cons_succ]
        rw [show assignSlice2 (y :: assignSlice2 l'' 0 as) 0 (b :: bs) =
            b :: assignSlice2 (assignSlice2 l'' 0 as) 1 bs from rfl]
        rw [ih]
        simp [interleavePairs]

theorem interleavePairs_perm {α : Type} :
    ∀ (xs ys : List α), xs.length = ys.length →
      (interleavePairs xs ys).Perm (xs ++ ys)
  | [], [], _ => by simp [interleavePairs]
  | a :: as, b :: bs, h => by
      have ih := interleavePairs_perm as bs (by simpa using h)
      have step1 : (interleavePairs (a :: as) (b :: bs)).Perm
          (a :: b :: (as ++ bs)) := by
        simp only [interleavePairs, List.zip_cons_cons, List.flatMap_cons]
        exact ((ih.cons b).cons a)
      have step2 : (a :: (b :: (as ++ bs))).Perm (a :: (as ++ b :: bs)) :=
        (List.perm_middle.symm).cons a
      simpa using step1.trans step2

/-- For even `n`, `_make_sequence` succeeds and returns the pairwise
interleaving of `[0 .. n/2-1]` with `reverse [n/2 .. n-1]`. -/
theorem makeSequence_eq_interleave (n : Nat) (h : n % 2 = 0) :
    makeSequence n =
      .ok (interleavePairs ((List.range n).take (n / 2))
        (((List.range n).drop (n / 2)).reverse)) := by
  have hleft : ((List.range n).take (n / 2)).length = n / 2 := by
    simp; omega
  have hright : (((List.range n).drop (n / 2)).reverse).length = n / 2 := by
    simp; omega
  have hassign := assignSlice2_interleave
    ((List.range n).take (n / 2)) (((List.range n).drop (n / 2)).reverse)
    (List.range n) (by simp; omega) (by rw [hleft, hright])
  simp only [makeSequence, if_pos h]
  exact congrArg Except.ok hassign

/-- The result of `_make_sequence n` for even `n` is a permutation of
`range n`. -/
theorem makeSequence_perm_range (n : Nat) (h : n % 2 = 0) (R : List Nat)
    (hR : makeSequence n = .ok R) : R.Perm (List.range n) := by
  rw [makeSequence_eq_interleave n h] at hR
  injection hR with hR
  subst hR
  have h1 : (((List.range n).take (n / 2)) ++
      (((List.range n).drop (n / 2)).reverse)).Perm (List.range n) := by
    have ha : (((List.range n).take (n / 2)) ++
        (((List.range n).drop (n / 2)).reverse)).Perm
        (((List.range n).take (n / 2)) ++
          ((List.range n).drop (n / 2))) :=
      List.Perm.append_left _ (List.reverse_perm _)
    rw [List.take_append_drop] at ha
    exact ha
  refine (interleavePairs_perm _ _ ?_).trans h1
  simp; omega

/-- Elementwise description of `_make_sequence n` for even `n`:
length `n`, entry `k` at even position `2k`, entry `n-1-k` at odd
position `2k+1`. -/
theorem makeSequence_entries (n : Nat) (h : n % 2 = 0) (R : List Nat)
    (hR : makeSequence n = .ok R) :
    R.length = n ∧
      ∀ k, k < n / 2 →
        R[2 * k]? = some k ∧ R[2 * k + 1]? = some (n - 1 - k) := by
  have hunfold : R =
      assignSlice2
        (assignSlice2 (List.range n) 0 ((List.range n).take (n / 2))) 1
        (((List.range n).drop (n / 2)).reverse) := by
    simp only [makeSequence, if_pos h] at hR
    injection hR with hR
    exact hR.symm
  have hleft : ((List.range n).take (n / 2)).length = n / 2 := by
    simp; omega
  have hright : ((((List.range n).drop (n / 2))).reverse).length = n / 2 := by
    simp; omega
  have hinnerlen :
      (assignSlice2 (List.range n) 0 ((List.range n).take (n / 2))).length
        = n := by
    rw [assignSlice2_length]; simp
  have hin : 0 + 2 * ((List.range n).take (n / 2)).length ≤
      (List.range n).length + 1 := by
    rw [hleft]; simp; omega
  have hout : 1 + 2 * ((((List.range n).drop (n / 2))).reverse).length ≤
      (assignSlice2 (List.range n) 0 ((List.range n).take (n / 2))).length
        + 1 := by
    rw [hright, hinnerlen]; omega
  constructor
  · rw [hunfold, assignSlice2_length, hinnerlen]
  · intro k hk
    constructor
    · rw [hunfold, assignSlice2_getElem? _ 1 _ hout]
      have hcond : ¬ (1 ≤ 2 * k ∧ (2 * k - 1) % 2 = 0 ∧ (2 * k - 1) / 2 <
          ((((List.range n).drop (n / 2))).reverse).length) := by
        rw [hright]; omega
      rw [if_neg hcond, assignSlice2_getElem? _ 0 _ hin]
      have hcond2 : 0 ≤ 2 * k ∧ (2 * k - 0) % 2 = 0 ∧ (2 * k - 0) / 2 <
          ((List.range n).take (n / 2)).length := by
        rw [hleft]; omega
      rw [if_pos hcond2]
      have : (2 * k - 0) / 2 = k := by omega
      rw [this, List.getElem?_take, if_pos hk, List.getElem?_range]
      omega
    · rw [hunfold, assignSlice2_getElem? _ 1 _ hout]
      have hcond : 1 ≤ 2 * k + 1 ∧ (2 * k + 1 - 1) % 2 = 0 ∧
          (2 * k + 1 - 1) / 2 <
            ((((List.range n).drop (n / 2))).reverse).length := by
        rw [hright]; omega
      rw [if_pos hcond]
      have hk2 : (2 * k + 1 - 1) / 2 = k := by omega
      rw [hk2]
      have hklt : k < ((List.range n).drop (n / 2)).length := by
        simp; omega
      rw [List.getElem?_reverse hklt, List.getElem?_drop]
      have hidx : n / 2 + (((List.range n).drop (n / 2)).length - 1 - k)
          < n := by
        simp; omega
      rw [List.getElem?_range hidx]
      congr 1
      simp
      omega

/-!
## Filesystem and PDF library abstraction

A filesystem is a map `files : String → Option (List α)` sending an
existing path to the page list of the document stored there:
`os.path.exists p` is `(files p).isSome`, `getNumPages` is the length
of the page list, and `getPage i` indexes into it.  Writing a document
is modelled by returning the page list that would be written.
-/

/-- `getPage(i)` of the PDF reader: page `i` of `doc`.  The underlying
Python list indexing wraps a negative index once from the end and
raises `IndexError` when the index is out of range. -/
def getPageI {α : Type} (doc : List α) (i : Int) : Except PdfError α :=
  let j : Int := if i < 0 then (doc.length : Int) + i else i
  if h : 0 ≤ j ∧ j.toNat < doc.length then .ok (doc.get ⟨j.toNat, h.2⟩)
  else .error .indexError

/-- `reorder(input_filename, output_filename)` from `reorder.py`
lines 25-43: asserts the input exists and the output does not, then
emits the input's pages in the order given by `_make_sequence`. -/
def reorder {α : Type} (files : String → Option (List α))
    (input output : String) : Except PdfError (List α) :=
  match files input with
  | none => .error .assertionFailed
  | some doc =>
    if (files output).isSome then .error .assertionFailed
    else do
      let order ← makeSequence doc.length
      order.mapM (fun (i : Nat) => getPageI doc (i : Int))

/-- The `__main__` block of `reorder.py` lines 53-64: exits with a
diagnostic when the input is missing, or when the output exists and
differs from the input; otherwise calls `reorder`. -/
def reorderMain {α : Type} (files : String → Option (List α))
    (filename output : String) : Except PdfError (List α) :=
  if (files filename).isSome = false then .error .notFound
  else if (files output).isSome ∧ filename ≠ output then
    .error .alreadyExists
  else reorder files filename output

/-!
## merge.py

`_expand_files` (lines 16-28) iterates over the arguments.  In the
source, `result` is a Python list, so `result = result + filename`
(list + str, taken when the argument is an existing regular file) and
`result = result + path.glob("*.*")` (list + generator, taken when the
argument is a directory) both raise `TypeError`; only the glob branch
`result = result + glob(filename)` concatenates two lists.  The
predicates `isFile`/`isDir` and the glob resolver stand for
`os.path.isfile`, `os.path.isdir` and `glob.glob`.
-/

def expandFiles (isFile isDir : String → Bool)
    (globFn : String → List String) (filenames : List String) :
    Except PdfError (List String) :=
  filenames.foldlM (fun result filename =>
    if isFile filename then .error .typeError
    else if isDir filename then .error .typeError
    else .ok (result ++ globFn filename)) []

/-- Python `source.pages[k:]`: drop the first `k` pages when
`k ≥ 0`; a negative `k` counts from the end (clamped at 0). -/
def pySliceFrom {α : Type} (l : List α) (k : Int) : List α :=
  if 0 ≤ k then l.drop k.toNat else l.drop (l.length - (-k).toNat)

/-- The page-accumulation loop of `merge` (`merge.py` lines 34-41):
`merged` is the accumulated output; each file is opened (an error if
missing) and its pages appended, the first `skip_front` of them dropped
when `if skip_front:` is truthy (a `Some` value different from 0). -/
def mergeFrom {α : Type} (files : String → Option (List α))
    (merged : List α) : List String → Option Int →
    Except PdfError (List α)
  | [], _ => .ok merged
  | filename :: rest, skip_front =>
    match files filename with
    | none => .error .notFound
    | some source =>
      let pages := match skip_front with
        | some k => if k ≠ 0 then pySliceFrom source k else source
        | none => source
      mergeFrom files (merged ++ pages) rest skip_front

/-- `merge(output, filenames, skip_front)` from `merge.py`
lines 31-43, returning the page list saved to `output`. -/
def merge {α : Type} (files : String → Option (List α))
    (filenames : List String) (skip_front : Option Int) :
    Except PdfError (List α) :=
  mergeFrom files [] filenames skip_front

/-!
## split.py
-/

/-- The `Chapter` named tuple of `split.py` lines 14-19. -/
structure Chapter where
  name : String
  start : Int
  stop : Int
  deriving DecidableEq, Repr

/-- The invariant the spec states for `Chapter` (§3): a 1-based
inclusive range inside the document. -/
def chapterInvariant (c : Chapter) (total : Nat) : Prop :=
  1 ≤ c.start ∧ c.start ≤ c.stop ∧ c.stop ≤ (total : Int)

instance (c : Chapter) (total : Nat) :
    Decidable (chapterInvariant c total) := by
  unfold chapterInvariant; infer_instance

/-- The row loop of `_parse_splits_file` (`split.py` lines 28-33): each
CSV row, with its `start`/`end` columns already converted by `int()`,
becomes a `Chapter` verbatim — no validation is performed. -/
def parseSplitsFile (rows : List (String × Int × Int)) : List Chapter :=
  rows.map (fun r => Chapter.mk r.1 r.2.1 r.2.2)

/-- Python `range(a, b)` over integers. -/
def pyRange (a b : Int) : List Int :=
  (List.range (b - a).toNat).map (fun (i : Nat) => a + (i : Int))

/-- The per-chapter body of `split` (`split.py` lines 47-58): pages
`range(chapter.start - 1, chapter.stop)` of the input document. -/
def splitChapter {α : Type} (doc : List α) (c : Chapter) :
    Except PdfError (List α) :=
  (pyRange (c.start - 1) c.stop).mapM (fun i => getPageI doc i)

/-- `split(filename, chapters, directory)` from `split.py`
lines 38-58: one output file per chapter, named
`os.path.join(directory, chapter.name)` (modelled as
`directory ++ "/" ++ name`), holding that chapter's pages. -/
def split {α : Type} (doc : List α) (chapters : List Chapter)
    (directory : String) : Except PdfError (List (String × List α)) :=
  chapters.mapM (fun c =>
    (splitChapter doc c).map
      (fun pages => (directory ++ "/" ++ c.name, pages)))

theorem getPageI_ok {α : Type} (doc : List α) (i : Int) (h0 : 0 ≤ i)
    (h : i.toNat < doc.length) :
    getPageI doc i = .ok (doc.get ⟨i.toNat, h⟩) := by
  have hneg : ¬ i < 0 := by omega
  simp only [getPageI, if_neg hneg]
  rw [dif_pos ⟨h0, h⟩]

/-- Fetching every page named by an in-bounds index list succeeds and
preserves the list's length. -/
theorem mapM_getPageI_ok {α : Type} (doc : List α) :
    ∀ (R : List Nat), (∀ i, i ∈ R → i < doc.length) →
      ∃ ps, R.mapM (fun (i : Nat) => getPageI doc (i : Int)) = .ok ps ∧
        ps.length = R.length
  | [], _ => ⟨[], by rw [List.mapM_nil]; rfl, rfl⟩
  | i :: rest, h => by
      obtain ⟨ps, hps, hlen⟩ := mapM_getPageI_ok doc rest
        (fun j hj => h j (List.mem_cons_of_mem _ hj))
      have hi : i < doc.length := h i (List.mem_cons_self _ _)
      have hti : ((i : Int)).toNat < doc.length := by simpa using hi
      refine ⟨doc.get ⟨((i : Int)).toNat, hti⟩ :: ps, ?_, by simp [hlen]⟩
      rw [List.mapM_cons, getPageI_ok doc (i : Int) (by omega) hti, hps]
      rfl

/-- Fetching the pages of `range(a, a + cnt)` (all in bounds) yields
exactly the contiguous slice of the document starting at `a`. -/
theorem mapM_getPageI_slice {α : Type} (doc : List α) :
    ∀ (cnt : Nat) (a : Int), 0 ≤ a → a.toNat + cnt ≤ doc.length →
      ((List.range cnt).map (fun (i : Nat) => a + (i : Int))).mapM
          (fun i => getPageI doc i) =
        .ok ((doc.drop a.toNat).take cnt)
  | 0, a, _, _ => by
      rw [show (List.range 0).map (fun (i : Nat) => a + (i : Int)) = [] from rfl,
        List.mapM_nil]
      rfl
  | cnt + 1, a, ha, hlen => by
      have hidx : a.toNat < doc.length := by omega
      have hmapeq :
          (List.range (cnt + 1)).map (fun (i : Nat) => a + (i : Int)) =
            a :: (List.range cnt).map (fun (i : Nat) => (a + 1) + (i : Int)) := by
        rw [List.range_succ_eq_map, List.map_cons, List.map_map]
        simp only [Nat.cast_zero, add_zero]
        congr 1
        apply List.map_congr_left
        intro x _
        simp only [Function.comp_apply]
        push_cast
        ring
      have ih := mapM_getPageI_slice doc cnt (a + 1) (by omega) (by omega)
      rw [hmapeq, List.mapM_cons, getPageI_ok doc a ha hidx, ih]
      have hdrop : doc.drop a.toNat =
          doc.get ⟨a.toNat, hidx⟩ :: doc.drop (a.toNat + 1) := by
        rw [List.get_eq_getElem]
        exact List.drop_eq_getElem_cons hidx
      have htn : (a + 1).toNat = a.toNat + 1 := by omega
      rw [htn, hdrop, List.take_succ_cons]
      rfl

/-- Claim C1: for every non-negative even integer `n`, `_make_sequence`
returns a sequence `R` of length `n` with `R[2k] = k` and
`R[2k+1] = n-1-k` for every `k < n/2`; in particular `n = 4` yields
`[0, 3, 1, 2]` and `n = 8` yields `[0, 7, 1, 6, 2, 5, 3, 4]`. -/
theorem makeSequence_interleaving_claim (n : Nat) (h : n % 2 = 0) :
    ∃ R, makeSequence n = .ok R ∧ R.length = n ∧
      (∀ k, k < n / 2 →
        R[2 * k]? = some k ∧ R[2 * k + 1]? = some (n - 1 - k)) ∧
      (n = 4 → R = [0, 3, 1, 2]) ∧
      (n = 8 → R = [0, 7, 1, 6, 2, 5, 3, 4]) := by
  have hex : ∃ R, makeSequence n = .ok R := by
    refine ⟨_, makeSequence_eq_interleave n h⟩
  obtain ⟨R, hR⟩ := hex
  obtain ⟨hlen, hent⟩ := makeSequence_entries n h R hR
  refine ⟨R, hR, hlen, hent, ?_, ?_⟩
  · intro h4
    subst h4
    have h4' : makeSequence 4 = .ok [0, 3, 1, 2] := rfl
    rw [h4'] at hR
    injection hR with hR
    exact hR.symm
  · intro h8
    subst h8
    have h8' : makeSequence 8 = .ok [0, 7, 1, 6, 2, 5, 3, 4] := rfl
    rw [h8'] at hR
    injection hR with hR
    exact hR.symm

theorem makeSequence_interleaving_claim_witness :
    (4 : Nat) % 2 = 0 ∧
    ∃ R, makeSequence 4 = .ok R ∧ R.length = 4 ∧
      (∀ k, k < 4 / 2 →
        R[2 * k]? = some k ∧ R[2 * k + 1]? = some (4 - 1 - k)) ∧
      (4 = 4 → R = [0, 3, 1, 2]) ∧
      ((4 : Nat) = 8 → R = [0, 7, 1, 6, 2, 5, 3, 4]) :=
  ⟨by decide, makeSequence_interleaving_claim 4 (by decide)⟩

/-- Claim C2: for every even `n ≥ 2`, `_make_sequence` returns a
permutation of `0..n-1`: length `n`, no duplicates, no omissions. -/
theorem makeSequence_permutation_claim (n : Nat) (h : n % 2 = 0)
    (_h2 : 2 ≤ n) :
    ∃ R, makeSequence n = .ok R ∧ R.length = n ∧ R.Nodup ∧
      ∀ m, m ∈ R ↔ m < n := by
  obtain ⟨R, hR⟩ : ∃ R, makeSequence n = .ok R :=
    ⟨_, makeSequence_eq_interleave n h⟩
  have hperm := makeSequence_perm_range n h R hR
  refine ⟨R, hR, ?_, ?_, ?_⟩
  · rw [hperm.length_eq, List.length_range]
  · exact hperm.nodup_iff.mpr (List.nodup_range n)
  · intro m
    rw [hperm.mem_iff, List.mem_range]

theorem makeSequence_permutation_claim_witness :
    (8 : Nat) % 2 = 0 ∧ 2 ≤ 8 ∧
    (∃ R, makeSequence 8 = .ok R ∧ R.length = 8 ∧ R.Nodup ∧
      ∀ m, m ∈ R ↔ m < 8) :=
  ⟨by decide, by decide,
    makeSequence_permutation_claim 8 (by decide) (by decide)⟩

/-- Claim C3: for every odd `n`, `_make_sequence` fails with the
`InvalidArgument`-kind error (the `assert n % 2 == 0` fires) instead of
returning any sequence. -/
theorem makeSequence_odd_rejected_claim (n : Nat) (h : n % 2 = 1) :
    makeSequence n = .error .invalidArgument := by
  simp only [makeSequence]
  rw [if_neg (by omega)]

theorem makeSequence_odd_rejected_claim_witness :
    (3 : Nat) % 2 = 1 ∧ makeSequence 3 = .error .invalidArgument :=
  ⟨by decide, makeSequence_odd_rejected_claim 3 (by decide)⟩

/-- Claim C8: for every even `n`, the result `R` of `_make_sequence`
has `R[0] = 0` and `R[1] = n - 1` (positions 0 and 1 exist whenever the
indexing is meaningful, i.e. the bounds hold). -/
theorem makeSequence_first_two_claim (n : Nat) (h : n % 2 = 0)
    (R : List Nat) (hR : makeSequence n = .ok R)
    (h0 : 0 < R.length) (h1 : 1 < R.length) :
    R.get ⟨0, h0⟩ = 0 ∧ R.get ⟨1, h1⟩ = n - 1 := by
  obtain ⟨hlen, hent⟩ := makeSequence_entries n h R hR
  have hhalf : 0 < n / 2 := by omega
  obtain ⟨he, ho⟩ := hent 0 hhalf
  simp only [Nat.mul_zero, Nat.zero_add] at he ho
  constructor
  · apply Option.some.inj
    rw [List.get_eq_getElem, ← List.getElem?_eq_getElem h0]
    exact he
  · apply Option.some.inj
    rw [List.get_eq_getElem, ← List.getElem?_eq_getElem h1]
    exact ho

theorem makeSequence_first_two_claim_witness :
    ([0, 3, 1, 2] : List Nat).get ⟨0, by decide⟩ = 0 ∧
    ([0, 3, 1, 2] : List Nat).get ⟨1, by decide⟩ = 4 - 1 :=
  makeSequence_first_two_claim 4 (by decide) [0, 3, 1, 2] rfl
    (by decide) (by decide)

/-- Claim C7: for every even `n > 2`, composing the reorder permutation
with itself is not the identity on `0..n-1`: some position `i < n` has
`R[R[i]] ≠ i`. -/
theorem makeSequence_not_self_inverse_claim (n : Nat) (h : n % 2 = 0)
    (h2 : 2 < n) (R : List Nat) (hR : makeSequence n = .ok R) :
    ∃ i, i < n ∧ R[i]?.bind (fun j => R[j]?) ≠ some i := by
  obtain ⟨hlen, hent⟩ := makeSequence_entries n h R hR
  refine ⟨1, by omega, ?_⟩
  have h1 : R[1]? = some (n - 1) := by
    have := (hent 0 (by omega)).2
    simpa using this
  have hlast : R[n - 1]? = some (n / 2) := by
    have hk : n / 2 - 1 < n / 2 := by omega
    have := (hent (n / 2 - 1) hk).2
    have hidx : 2 * (n / 2 - 1) + 1 = n - 1 := by omega
    have hval : n - 1 - (n / 2 - 1) = n / 2 := by omega
    rw [hidx, hval] at this
    exact this
  rw [h1, Option.some_bind, hlast]
  intro heq
  injection heq with heq
  omega

theorem makeSequence_not_self_inverse_claim_witness :
    (4 : Nat) % 2 = 0 ∧ 2 < 4 ∧
    (∃ i, i < 4 ∧
      (([0, 3, 1, 2] : List Nat)[i]?.bind
        (fun j => ([0, 3, 1, 2] : List Nat)[j]?)) ≠ some i) :=
  ⟨by decide, by decide,
    makeSequence_not_self_inverse_claim 4 (by decide) (by decide)
      [0, 3, 1, 2] rfl⟩

/-- Claim C4: for a chapter `(name, start, stop)` with
`1 ≤ start ≤ stop ≤ doc.length`, `split` produces for that chapter the
output file `directory/name` holding exactly pages `start..stop`
(1-based, inclusive) of the input, in their original order — the
contiguous slice of `stop - start + 1` pages beginning at 0-based
index `start - 1`. -/
theorem split_chapter_pages_claim {α : Type} (doc : List α) (c : Chapter)
    (dir : String) (h1 : 1 ≤ c.start) (h2 : c.start ≤ c.stop)
    (h3 : c.stop ≤ (doc.length : Int)) :
    splitChapter doc c =
      .ok ((doc.drop (c.start - 1).toNat).take
        (c.stop - c.start + 1).toNat) ∧
    split doc [c] dir =
      .ok [(dir ++ "/" ++ c.name,
        (doc.drop (c.start - 1).toNat).take
          (c.stop - c.start + 1).toNat)] := by
  have hsc : splitChapter doc c =
      .ok ((doc.drop (c.start - 1).toNat).take
        (c.stop - c.start + 1).toNat) := by
    unfold splitChapter pyRange
    have hcnt : (c.stop - (c.start - 1)).toNat =
        (c.stop - c.start + 1).toNat := by omega
    rw [hcnt]
    exact mapM_getPageI_slice doc ((c.stop - c.start + 1).toNat)
      (c.start - 1) (by omega) (by omega)
  refine ⟨hsc, ?_⟩
  unfold split
  rw [List.mapM_cons, List.mapM_nil, hsc]
  rfl

theorem split_chapter_pages_claim_witness :
    splitChapter ([1, 2, 3, 4, 5] : List Nat) ⟨"a", 1, 3⟩ =
      .ok [1, 2, 3] ∧
    split ([1, 2, 3, 4, 5] : List Nat) [⟨"a", 1, 3⟩] "dir" =
      .ok [("dir" ++ "/" ++ "a", [1, 2, 3])] := by
  have h := split_chapter_pages_claim ([1, 2, 3, 4, 5] : List Nat)
    ⟨"a", 1, 3⟩ "dir" (by decide) (by decide) (by decide)
  exact ⟨h.1.trans (by rfl), h.2.trans (by rfl)⟩

/-- Claim C5: in the source, an existing regular file argument reaches
`result = result + filename` (a Python list + str) and a directory
argument reaches `result = result + path.glob("*.*")` (list +
generator); both raise `TypeError` instead of expanding as the spec
describes, so `merge` never receives the resolved list. -/
theorem expandFiles_typeerror_claim :
    expandFiles (fun s => s == "a.pdf") (fun _ => false)
        (fun s => [s]) ["a.pdf"] = .error .typeError ∧
    expandFiles (fun _ => false) (fun s => s == "d")
        (fun _ => []) ["d"] = .error .typeError :=
  ⟨rfl, rfl⟩

/-- A two-file filesystem used as concrete input for the reorder
command-line checks. -/
def fsAB : String → Option (List Nat) :=
  fun s =>
    if s = "a.pdf" then some [10, 20]
    else if s = "b.pdf" then some [30] else none

/-- Claim C6 counterexample: with `a.pdf` present (2 pages) and the
output path equal to the input path, the run does not "proceed to
apply the transform and write the result": the argument-level check
passes, but the `assert os.path.exists(output_filename) is False`
inside `reorder` fails, so the result is an error, not a written
document. -/
theorem reorder_same_path_counterexample :
    reorderMain fsAB "a.pdf" "a.pdf" = .error .assertionFailed ∧
    ¬ ∃ pages, reorderMain fsAB "a.pdf" "a.pdf" = .ok pages := by
  constructor
  · rfl
  · rintro ⟨pages, hp⟩
    rw [show reorderMain fsAB "a.pdf" "a.pdf" =
      .error .assertionFailed from rfl] at hp
    exact Except.noConfusion hp

/-- Claim C6 (amended): the reorder utility rejects a missing input
(`NotFound`) and an existing output different from the input
(`AlreadyExists`); when the output equals the existing input the
argument-level check does not reject, but `reorder`'s own assertion
that the output must not exist then fails, so the transform result is
never written; when the input exists, the output does not, and the
page count is even, the reorder is applied and written. -/
theorem reorderMain_checks_claim {α : Type}
    (files : String → Option (List α)) (f o : String) :
    ((files f).isSome = false → reorderMain files f o = .error .notFound) ∧
    ((files f).isSome = true → (files o).isSome = true → f ≠ o →
      reorderMain files f o = .error .alreadyExists) ∧
    ((files f).isSome = true → f = o →
      reorderMain files f o = .error .assertionFailed) ∧
    (∀ doc, files f = some doc → files o = none → doc.length % 2 = 0 →
      ∃ pages, reorderMain files f o = .ok pages ∧
        pages.length = doc.length) := by
  refine ⟨?_, ?_, ?_, ?_⟩
  · intro h
    simp [reorderMain, h]
  · intro hf ho hne
    unfold reorderMain
    rw [if_neg (by simp [hf]), if_pos ⟨ho, hne⟩]
  · intro hf heq
    subst heq
    obtain ⟨doc, hdoc⟩ := Option.isSome_iff_exists.mp hf
    unfold reorderMain reorder
    rw [if_neg (by simp [hf]), if_neg (by simp), hdoc]
    simp
  · intro doc hdoc hnone heven
    obtain ⟨R, hR⟩ : ∃ R, makeSequence doc.length = .ok R :=
      ⟨_, makeSequence_eq_interleave _ heven⟩
    have hperm := makeSequence_perm_range doc.length heven R hR
    have hmem : ∀ i, i ∈ R → i < doc.length := fun i hi => by
      have := hperm.mem_iff.mp hi
      simpa [List.mem_range] using this
    obtain ⟨ps, hps, hlen⟩ := mapM_getPageI_ok doc R hmem
    refine ⟨ps, ?_, by rw [hlen, hperm.length_eq, List.length_range]⟩
    unfold reorderMain reorder
    rw [if_neg (by simp [hdoc]), if_neg (by simp [hnone]), hdoc]
    show (if (files o).isSome = true then
        Except.error PdfError.assertionFailed
      else do
        let order ← makeSequence doc.length
        order.mapM (fun (i : Nat) => getPageI doc (i : Int))) =
      Except.ok ps
    rw [if_neg (by simp [hnone]), hR]
    exact hps

theorem reorderMain_checks_claim_witness :
    reorderMain fsAB "b.pdf" "a.pdf" = .error .alreadyExists ∧
    reorderMain fsAB "a.pdf" "a.pdf" = .error .assertionFailed ∧
    (∃ pages, reorderMain fsAB "a.pdf" "out.pdf" = .ok pages ∧
      pages.length = ([10, 20] : List Nat).length) := by
  refine ⟨?_, ?_, ?_⟩
  · exact (reorderMain_checks_claim fsAB "b.pdf" "a.pdf").2.1
      rfl rfl (by decide)
  · exact (reorderMain_checks_claim fsAB "a.pdf" "a.pdf").2.2.1 rfl rfl
  · exact (reorderMain_checks_claim fsAB "a.pdf" "out.pdf").2.2.2
      [10, 20] rfl rfl (by decide)

/-- Claim C9 counterexample: the CSV row `("x", start=5, end=2)` parses
to a `Chapter` violating `1 ≤ start ≤ stop ≤ total` (for any total,
here 10): `_parse_splits_file` performs no validation. -/
theorem parse_row_invariant_counterexample :
    parseSplitsFile [("x", 5, 2)] = [⟨"x", 5, 2⟩] ∧
    ¬ chapterInvariant ⟨"x", 5, 2⟩ 10 :=
  ⟨rfl, by decide⟩

/-- Claim C9 (amended): a parsed `Chapter` carries exactly the name and
integer bounds of its CSV row, whatever they are — the parser
establishes no range invariant; `1 ≤ start ≤ stop ≤ total` holds only
if the row already satisfied it. -/
theorem parse_row_verbatim_claim (rows : List (String × Int × Int)) :
    (parseSplitsFile rows).length = rows.length ∧
    ∀ i (hi : i < rows.length) (hi2 : i < (parseSplitsFile rows).length),
      (parseSplitsFile rows).get ⟨i, hi2⟩ =
        ⟨(rows.get ⟨i, hi⟩).1, (rows.get ⟨i, hi⟩).2.1,
          (rows.get ⟨i, hi⟩).2.2⟩ := by
  constructor
  · simp [parseSplitsFile]
  · intro i hi hi2
    simp [parseSplitsFile, List.get_eq_getElem]

theorem parse_row_verbatim_claim_witness :
    (parseSplitsFile [("x", 5, 2)]).length = 1 ∧
    (parseSplitsFile [("x", 5, 2)]).get ⟨0, by decide⟩ = ⟨"x", 5, 2⟩ := by
  have h := parse_row_verbatim_claim [("x", 5, 2)]
  exact ⟨h.1, (h.2 0 (by decide) (by decide)).trans rfl⟩

theorem mergeFrom_skip_zero {α : Type}
    (files : String → Option (List α)) :
    ∀ (acc : List α) (names : List String),
      mergeFrom files acc names (some 0) = mergeFrom files acc names none
  | _, [] => rfl
  | acc, name :: rest => by
      cases hsrc : files name with
      | none => simp [mergeFrom, hsrc]
      | some source =>
          simp only [mergeFrom, hsrc]
          rw [if_neg (by simp)]
          exact mergeFrom_skip_zero files (acc ++ source) rest

/-- Claim C10: a source whose page count is at most `skip_front`
contributes zero pages to the merge (the out-of-range slice is empty)
without failing — removing it from the front of the input list leaves
the result unchanged; and `skip_front = 0` behaves exactly like
omitting `skip_front` (Python `if skip_front:` is falsy for both). -/
theorem merge_skipfront_claim {α : Type} :
    (∀ (files : String → Option (List α)) (name : String)
        (source : List α) (k : Int) (names : List String),
      0 ≤ k → files name = some source → source.length ≤ k.toNat →
      merge files (name :: names) (some k) =
        merge files names (some k)) ∧
    (∀ (files : String → Option (List α)) (names : List String),
      merge files names (some 0) = merge files names none) := by
  constructor
  · intro files name source k names hk hsrc hlen
    have hpages :
        (if k ≠ 0 then pySliceFrom source k else source) = ([] : List α)
        := by
      by_cases hk0 : k = 0
      · subst hk0
        simp only [ne_eq, not_true_eq_false, if_false]
        exact List.eq_nil_of_length_eq_zero (by omega)
      · rw [if_pos hk0]
        unfold pySliceFrom
        rw [if_pos hk]
        exact List.drop_eq_nil_of_le hlen
    show mergeFrom files [] (name :: names) (some k) = _
    simp only [mergeFrom, hsrc]
    rw [hpages]
    rfl
  · intro files names
    exact mergeFrom_skip_zero files [] names

/-- A filesystem holding a one-page file and a three-page file, used
as concrete input for the merge properties. -/
def fsMerge : String → Option (List Nat) :=
  fun s =>
    if s = "tiny.pdf" then some [7]
    else if s = "big.pdf" then some [1, 2, 3] else none

theorem merge_skipfront_claim_witness :
    merge fsMerge ["tiny.pdf", "big.pdf"] (some 5) =
      merge fsMerge ["big.pdf"] (some 5) ∧
    merge fsMerge ["big.pdf"] (some 0) = merge fsMerge ["big.pdf"] none
    := by
  constructor
  · exact (@merge_skipfront_claim Nat).1 fsMerge "tiny.pdf" [7] 5
      ["big.pdf"] (by decide) rfl (by decide)
  · exact (@merge_skipfront_claim Nat).2 fsMerge ["big.pdf"]

end PdfUtils
